import Mathlib

/-
  Verification of the Liquid-Level backend MQTT bridge (src/src/mqttBridge.js,
  second revision, lines 236-511 of the concatenated file).

  Shallow embedding conventions:
  - JS numbers are modelled as exact rationals (Rat); timestamps in milliseconds
    are rationals as well (Date.now values), so cooldown arithmetic is exact.
  - The per-entity message-handler pipeline (deadband suppression, alert state
    machine, cooldown gating, forced storage, reading insert) is the pure
    function processValue; side effects (FCM send, Mongo insert) are reported
    as Boolean flags of the step result.  Notification emission is modelled at
    the alert-engine boundary (the shouldNotify request); the push transport
    and its enabled flag are external collaborators.
  - The synchronization pass refreshBridgeProjects is modelled as the pure
    function refresh over an explicit bridge state (association lists standing
    for the JS Maps, which preserve insertion order).  The asynchronous
    subscribe bookkeeping (entry.subscribedTopics callback) only logs and is
    not consulted by any claim, so it is not part of the state.
-/

namespace LiquidBridge

/-- Alert state of an entity: the three states of the per-entity machine. -/
inductive AlertSt where
  | normal
  | low
  | high
deriving DecidableEq, Repr

/-- Entry of the lastAlertState map: state plus timestamp (ms) of the last
recorded transition. -/
structure AlertEntry where
  lastState : AlertSt
  lastTs : ℚ
deriving DecidableEq, Repr

/-- Entry of the lastStoredReading map: last persisted value and its time. -/
structure StoredReading where
  value : ℚ
  ts : ℚ
deriving DecidableEq, Repr

/-- In-memory per-entity state used by the message handler: the entry of
lastAlertState (none if the entity was never recorded) and the entry of
lastStoredReading (none if nothing was persisted yet). -/
structure EntityState where
  alert : Option AlertEntry
  lastStored : Option StoredReading
deriving DecidableEq, Repr

/-- Per-entity configuration, the fields of a currentSubs entry that the
message handler reads (from upsertProjectsFromDb, with defaults applied). -/
structure SubCfg where
  storeHistory : Bool
  alertsEnabled : Bool
  alertLow : Option ℚ
  alertHigh : Option ℚ
  alertCooldownSec : ℚ
  notifyOnRecover : Bool
  alertHysteresisMeters : Option ℚ
  noiseDeadbandMeters : Option ℚ
deriving DecidableEq, Repr

/-- Process-wide environment values: ALERT_HYSTERESIS_METERS (default 0) and
NOISE_DEADBAND_METERS (default 0.003). -/
structure Globals where
  hysteresis : ℚ
  noiseDeadband : ℚ
deriving DecidableEq, Repr

/-- Effective hysteresis: per-entity alertHysteresisMeters when finite and
non-null, else the global value (mqttBridge.js line 380). -/
def effHysteresis (g : Globals) (cfg : SubCfg) : ℚ :=
  cfg.alertHysteresisMeters.getD g.hysteresis

/-- Effective deadband: per-entity noiseDeadbandMeters when finite and
non-null, else the global default (mqttBridge.js line 372). -/
def effDeadband (g : Globals) (cfg : SubCfg) : ℚ :=
  cfg.noiseDeadbandMeters.getD g.noiseDeadband

/-- Cooldown in milliseconds: Math.max(0, Number(alertCooldownSec || 0) * 1000)
(mqttBridge.js line 397). -/
def cooldownMs (cfg : SubCfg) : ℚ :=
  max 0 (cfg.alertCooldownSec * 1000)

/-- The state evaluation of the alert engine (mqttBridge.js lines 381-395):
first the latch block keeps a previous low/high state inside the hysteresis
band, then, if the latch cleared, a fresh evaluation against both thresholds. -/
def evalState (low high : Option ℚ) (hyst : ℚ) (prevState : AlertSt) (v : ℚ) :
    AlertSt :=
  let state1 : AlertSt :=
    match prevState with
    | .low =>
      match low with
      | some l => if v < l then .low else if 0 < hyst ∧ v < l + hyst then .low else .normal
      | none => .normal
    | .high =>
      match high with
      | some hv => if hv < v then .high else if 0 < hyst ∧ hv - hyst < v then .high else .normal
      | none => .normal
    | .normal => .normal
  if state1 = AlertSt.normal then
    match low with
    | some l =>
      if v < l then .low
      else
        match high with
        | some hv => if hv < v then .high else .normal
        | none => .normal
    | none =>
      match high with
      | some hv => if hv < v then .high else .normal
      | none => .normal
  else state1

/-- Result of one handler step for one entity: the updated in-memory state and
the decision flags of the pipeline. -/
structure StepOut where
  st : EntityState
  newState : AlertSt
  crossedIntoAlert : Bool
  recovered : Bool
  cooledDown : Bool
  shouldNotify : Bool
  recorded : Bool
  stored : Bool
deriving DecidableEq, Repr

/-- The lastAlertState entry with its JS default (mqttBridge.js line 381). -/
def prevEntry (st : EntityState) : AlertEntry :=
  st.alert.getD { lastState := .normal, lastTs := 0 }

/-- The freshly evaluated alert state of one handler step. -/
def newStateOf (g : Globals) (cfg : SubCfg) (st : EntityState) (v : ℚ) : AlertSt :=
  evalState cfg.alertLow cfg.alertHigh (effHysteresis g cfg)
    (prevEntry st).lastState v

/-- The storeThis flag after deadband suppression (mqttBridge.js lines
368-376): starts as storeHistory and is cleared when a previous stored value
exists and differs by less than the effective deadband. -/
def storeThisAfterDeadband (g : Globals) (cfg : SubCfg) (st : EntityState)
    (v : ℚ) : Bool :=
  match st.lastStored with
  | some prevStored =>
    if cfg.storeHistory && decide (|prevStored.value - v| < effDeadband g cfg) then
      false
    else cfg.storeHistory
  | none => cfg.storeHistory

/-- The cooledDown flag (mqttBridge.js line 398). -/
def cooledFlag (cfg : SubCfg) (st : EntityState) (now : ℚ) : Bool :=
  decide (cooldownMs cfg ≤ now - (prevEntry st).lastTs)

/-- The crossedIntoAlert flag (mqttBridge.js line 399). -/
def crossedFlag (g : Globals) (cfg : SubCfg) (st : EntityState) (v : ℚ) : Bool :=
  decide ((prevEntry st).lastState = AlertSt.normal) &&
    (decide (newStateOf g cfg st v = AlertSt.low) ||
      decide (newStateOf g cfg st v = AlertSt.high))

/-- The recovered flag (mqttBridge.js line 400). -/
def recoveredFlag (g : Globals) (cfg : SubCfg) (st : EntityState) (v : ℚ) : Bool :=
  !(decide ((prevEntry st).lastState = AlertSt.normal)) &&
    decide (newStateOf g cfg st v = AlertSt.normal)

/-- The shouldNotify decision (mqttBridge.js line 403). -/
def notifyFlag (g : Globals) (cfg : SubCfg) (st : EntityState) (v now : ℚ) : Bool :=
  (crossedFlag g cfg st v && cooledFlag cfg st now) ||
    (recoveredFlag g cfg st v && cfg.notifyOnRecover && cooledFlag cfg st now)

/-- The condition of the transition-recording block (mqttBridge.js line 429):
(crossedIntoAlert AND cooledDown) OR recovered. -/
def recordedFlag (g : Globals) (cfg : SubCfg) (st : EntityState) (v now : ℚ) :
    Bool :=
  (crossedFlag g cfg st v && cooledFlag cfg st now) || recoveredFlag g cfg st v

/-- Whether the reading is inserted (mqttBridge.js lines 433 and 436): the
deadband decision, possibly overridden by the forced store of a recorded
transition, conjoined with the storeHistory guard of the insert itself. -/
def storedFlag (g : Globals) (cfg : SubCfg) (st : EntityState) (v now : ℚ) :
    Bool :=
  (if recordedFlag g cfg st v now &&
      (!storeThisAfterDeadband g cfg st v && cfg.storeHistory) then true
   else storeThisAfterDeadband g cfg st v) && cfg.storeHistory

/-- One message-handler step for one entity (mqttBridge.js lines 367-444):
deadband suppression against the last stored value, alert evaluation with
hysteresis, cooldown gating of notifications, recording of the transition in
lastAlertState, forced storage on a recorded transition, and the readings
insert guard.  When alertsEnabled is false the whole alert block is skipped
and newState is reported as normal (no evaluation happens). -/
def processValue (g : Globals) (cfg : SubCfg) (st : EntityState) (v now : ℚ) :
    StepOut :=
  if cfg.alertsEnabled then
    { st :=
        { alert :=
            if recordedFlag g cfg st v now then
              some { lastState := newStateOf g cfg st v, lastTs := now }
            else st.alert
        , lastStored :=
            if storedFlag g cfg st v now then some { value := v, ts := now }
            else st.lastStored }
    , newState := newStateOf g cfg st v
    , crossedIntoAlert := crossedFlag g cfg st v
    , recovered := recoveredFlag g cfg st v
    , cooledDown := cooledFlag cfg st now
    , shouldNotify := notifyFlag g cfg st v now
    , recorded := recordedFlag g cfg st v now
    , stored := storedFlag g cfg st v now }
  else
    { st :=
        { alert := st.alert
        , lastStored :=
            if storeThisAfterDeadband g cfg st v && cfg.storeHistory then
              some { value := v, ts := now }
            else st.lastStored }
    , newState := .normal
    , crossedIntoAlert := false
    , recovered := false
    , cooledDown := false
    , shouldNotify := false
    , recorded := false
    , stored := storeThisAfterDeadband g cfg st v && cfg.storeHistory }

/-- Boolean characterization of the insert decision: a reading is inserted
iff storeHistory is set and either the deadband decision kept it or the
transition-recording block forced it. -/
theorem storedFlag_iff (g : Globals) (cfg : SubCfg) (st : EntityState)
    (v now : ℚ) :
    storedFlag g cfg st v now = true ↔
      cfg.storeHistory = true ∧
        (storeThisAfterDeadband g cfg st v = true ∨
          recordedFlag g cfg st v now = true) := by
  unfold storedFlag
  cases hr : recordedFlag g cfg st v now <;>
    cases hs : storeThisAfterDeadband g cfg st v <;>
    cases hsh : cfg.storeHistory <;> simp

section ScenarioA

/-- Configuration of Scenario A in the specification: low 1.0, high 4.0,
hysteresis 0.1, cooldown 0. -/
def scenarioACfg : SubCfg :=
  { storeHistory := true, alertsEnabled := true, alertLow := some 1
  , alertHigh := some 4, alertCooldownSec := 0, notifyOnRecover := false
  , alertHysteresisMeters := some (1/10), noiseDeadbandMeters := none }

/-- Globals with default hysteresis 0 and default deadband 0.003. -/
def defaultGlobals : Globals := { hysteresis := 0, noiseDeadband := 3/1000 }

example :
    (processValue defaultGlobals scenarioACfg
      { alert := none, lastStored := none } (21/20) 0).newState = AlertSt.normal := by
  norm_num [processValue, newStateOf, prevEntry, evalState, crossedFlag,
    recoveredFlag, notifyFlag, recordedFlag, cooledFlag, storedFlag,
    storeThisAfterDeadband, effHysteresis, effDeadband, cooldownMs,
    scenarioACfg, defaultGlobals]

example :
    (processValue defaultGlobals scenarioACfg
      { alert := none, lastStored := none } (19/20) 0).shouldNotify = true := by
  norm_num [processValue, newStateOf, prevEntry, evalState, crossedFlag,
    recoveredFlag, notifyFlag, recordedFlag, cooledFlag, storedFlag,
    storeThisAfterDeadband, effHysteresis, effDeadband, cooldownMs,
    scenarioACfg, defaultGlobals]

example :
    (processValue defaultGlobals scenarioACfg
      { alert := some { lastState := .low, lastTs := 0 }, lastStored := none }
      (21/20) 5).newState = AlertSt.low := by
  norm_num [processValue, newStateOf, prevEntry, evalState, crossedFlag,
    recoveredFlag, notifyFlag, recordedFlag, cooledFlag, storedFlag,
    storeThisAfterDeadband, effHysteresis, effDeadband, cooldownMs,
    scenarioACfg, defaultGlobals]
  intro h
  cases h

example :
    (processValue defaultGlobals scenarioACfg
      { alert := some { lastState := .low, lastTs := 0 }, lastStored := none }
      (21/20) 5).shouldNotify = false := by
  norm_num [processValue, newStateOf, prevEntry, evalState, crossedFlag,
    recoveredFlag, notifyFlag, recordedFlag, cooledFlag, storedFlag,
    storeThisAfterDeadband, effHysteresis, effDeadband, cooldownMs,
    scenarioACfg, defaultGlobals]
  intro h
  cases h

end ScenarioA

/-- C1: once an entity is latched in state low (resp. high) with threshold
low (resp. high) present and effective hysteresis h positive, any value in
the band low ≤ v < low + h (resp. high − h < v ≤ high) leaves the evaluated
state at low (resp. high), the lastAlertState entry is unchanged, and no
notification-eligible transition (crossing into alert or recovery) occurs,
so nothing is notified or recorded for that value. -/
theorem c1_hysteresis_band_latch (g : Globals) (cfg : SubCfg) (st : EntityState)
    (e : AlertEntry) (v now : ℚ)
    (hen : cfg.alertsEnabled = true)
    (halert : st.alert = some e)
    (hhyst : 0 < effHysteresis g cfg)
    (hband :
      (e.lastState = AlertSt.low ∧
        ∃ l, cfg.alertLow = some l ∧ l ≤ v ∧ v < l + effHysteresis g cfg) ∨
      (e.lastState = AlertSt.high ∧
        ∃ hv, cfg.alertHigh = some hv ∧ hv - effHysteresis g cfg < v ∧ v ≤ hv)) :
    (processValue g cfg st v now).newState = e.lastState ∧
    (processValue g cfg st v now).st.alert = st.alert ∧
    (processValue g cfg st v now).crossedIntoAlert = false ∧
    (processValue g cfg st v now).recovered = false ∧
    (processValue g cfg st v now).recorded = false ∧
    (processValue g cfg st v now).shouldNotify = false := by
  have hpe : prevEntry st = e := by simp [prevEntry, halert]
  rcases hband with ⟨hstLow, l, hlow, hlv, hvh⟩ | ⟨hstHigh, hv, hhigh, hlo, hvle⟩
  · have hstate : newStateOf g cfg st v = AlertSt.low := by
      simp only [newStateOf, hpe, hstLow]
      simp only [evalState, hlow]
      by_cases hvl : v < l
      · simp [hvl]
      · simp [hvl, hhyst, hvh]
    simp [processValue, hen, crossedFlag, recoveredFlag, recordedFlag,
      notifyFlag, hpe, hstLow, hstate]
  · have hstate : newStateOf g cfg st v = AlertSt.high := by
      simp only [newStateOf, hpe, hstHigh]
      simp only [evalState, hhigh]
      by_cases hgt : hv < v
      · simp [hgt]
      · simp [hgt, hhyst, hlo]
    simp [processValue, hen, crossedFlag, recoveredFlag, recordedFlag,
      notifyFlag, hpe, hstHigh, hstate]

/-- Witness for C1: a concrete latched-low entity with a value inside the
hysteresis band (Scenario A, third value 1.05 with band 1.0 to 1.1). -/
theorem c1_hysteresis_band_latch_witness :
    (processValue defaultGlobals scenarioACfg
      { alert := some { lastState := .low, lastTs := 0 }, lastStored := none }
      (21/20) 5).newState = AlertSt.low ∧
    (processValue defaultGlobals scenarioACfg
      { alert := some { lastState := .low, lastTs := 0 }, lastStored := none }
      (21/20) 5).st.alert = some { lastState := .low, lastTs := 0 } ∧
    (processValue defaultGlobals scenarioACfg
      { alert := some { lastState := .low, lastTs := 0 }, lastStored := none }
      (21/20) 5).crossedIntoAlert = false ∧
    (processValue defaultGlobals scenarioACfg
      { alert := some { lastState := .low, lastTs := 0 }, lastStored := none }
      (21/20) 5).recovered = false ∧
    (processValue defaultGlobals scenarioACfg
      { alert := some { lastState := .low, lastTs := 0 }, lastStored := none }
      (21/20) 5).recorded = false ∧
    (processValue defaultGlobals scenarioACfg
      { alert := some { lastState := .low, lastTs := 0 }, lastStored := none }
      (21/20) 5).shouldNotify = false := by
  have h := c1_hysteresis_band_latch defaultGlobals scenarioACfg
    { alert := some { lastState := .low, lastTs := 0 }, lastStored := none }
    { lastState := .low, lastTs := 0 } (21/20) 5
    rfl rfl (by norm_num [effHysteresis, scenarioACfg, defaultGlobals])
    (Or.inl ⟨rfl, 1, rfl, by norm_num,
      by norm_num [effHysteresis, scenarioACfg, defaultGlobals]⟩)
  exact h

/-- C3: on a recovery evaluation (previous recorded state not normal, newly
evaluated state normal), the notification request fires iff notifyOnRecover is
set and the cooldown has elapsed since the last recorded transition.  Emission
is modelled at the alert-engine boundary (the shouldNotify decision of
mqttBridge.js line 403); the push transport is an external collaborator. -/
theorem c3_recovery_notify_iff (g : Globals) (cfg : SubCfg) (st : EntityState)
    (v now : ℚ)
    (hen : cfg.alertsEnabled = true)
    (hprev : (prevEntry st).lastState ≠ AlertSt.normal)
    (hnew : newStateOf g cfg st v = AlertSt.normal) :
    (processValue g cfg st v now).shouldNotify = true ↔
      (cfg.notifyOnRecover = true ∧
        cooldownMs cfg ≤ now - (prevEntry st).lastTs) := by
  simp [processValue, hen, notifyFlag, crossedFlag, recoveredFlag, cooledFlag,
    hnew, hprev]

/-- Witness for C3: a recovery from the low state with notifyOnRecover unset
never notifies (the iff specializes to shouldNotify = false). -/
theorem c3_recovery_notify_iff_witness :
    (processValue defaultGlobals scenarioACfg
      { alert := some { lastState := .low, lastTs := 0 }, lastStored := none }
      (3/2) 5).shouldNotify ≠ true := by
  have h := c3_recovery_notify_iff defaultGlobals scenarioACfg
    { alert := some { lastState := .low, lastTs := 0 }, lastStored := none }
    (3/2) 5 rfl (by intro h; cases h)
    (by norm_num [newStateOf, prevEntry, evalState, effHysteresis, scenarioACfg,
      defaultGlobals])
  intro hnot
  have := h.mp hnot
  simp [scenarioACfg] at this

/-- C5 counterexample: the code records a recovery transition (state and
timestamp) even when notifyOnRecover is false and the cooldown has not
elapsed: mqttBridge.js line 429 updates lastAlertState on
(crossedIntoAlert AND cooledDown) OR recovered, so the recovery recording is
not gated by the notifyOnRecover-plus-cooldown check (only the recovery
notification is).  Concrete input: entity in state low since time 0, cooldown
1800 s, notifyOnRecover false, value 2 above the band at time 1000 ms. -/
theorem c5_recovery_record_ungated_cex :
    let cfg : SubCfg :=
      { storeHistory := false, alertsEnabled := true, alertLow := some 1
      , alertHigh := none, alertCooldownSec := 1800, notifyOnRecover := false
      , alertHysteresisMeters := none, noiseDeadbandMeters := none }
    let st : EntityState :=
      { alert := some { lastState := .low, lastTs := 0 }, lastStored := none }
    (processValue defaultGlobals cfg st 2 1000).recovered = true ∧
    (processValue defaultGlobals cfg st 2 1000).recorded = true ∧
    (processValue defaultGlobals cfg st 2 1000).st.alert =
      some { lastState := .normal, lastTs := 1000 } ∧
    (processValue defaultGlobals cfg st 2 1000).shouldNotify = false ∧
    ¬ cooldownMs
      { storeHistory := false, alertsEnabled := true, alertLow := some 1
      , alertHigh := none, alertCooldownSec := 1800, notifyOnRecover := false
      , alertHysteresisMeters := none, noiseDeadbandMeters := none } ≤ 1000 - 0 := by
  refine ⟨?_, ?_, ?_, ?_, ?_⟩ <;>
    (norm_num [processValue, newStateOf, prevEntry, evalState, crossedFlag,
    recoveredFlag, notifyFlag, recordedFlag, cooledFlag, storedFlag,
    storeThisAfterDeadband, effHysteresis, effDeadband, cooldownMs,
      defaultGlobals]
     try (intro h; cases h))

/-- C5 amended: no crossing-into-alert transition is recorded before the
cooldown has elapsed since the last recorded transition; a recovery
transition, however, is always recorded (regardless of notifyOnRecover and
cooldown — only the recovery notification is gated); and a non-gated
still-in-alert evaluation records nothing, notifies nothing and leaves the
transition timestamp untouched. -/
theorem c5_transition_recording_gates (g : Globals) (cfg : SubCfg)
    (st : EntityState) (v now : ℚ)
    (hen : cfg.alertsEnabled = true) :
    ((processValue g cfg st v now).recorded = true →
      (processValue g cfg st v now).crossedIntoAlert = true →
      cooldownMs cfg ≤ now - (prevEntry st).lastTs) ∧
    ((processValue g cfg st v now).recovered = true →
      (processValue g cfg st v now).recorded = true) ∧
    ((prevEntry st).lastState ≠ AlertSt.normal →
      (processValue g cfg st v now).newState ≠ AlertSt.normal →
      (processValue g cfg st v now).recorded = false ∧
      (processValue g cfg st v now).st.alert = st.alert ∧
      (processValue g cfg st v now).shouldNotify = false) := by
  refine ⟨?_, ?_, ?_⟩
  · intro hrec hcross
    simp only [processValue, hen, if_true] at hrec hcross
    simp only [recordedFlag, recoveredFlag, crossedFlag, Bool.or_eq_true,
      Bool.and_eq_true, decide_eq_true_eq, Bool.not_eq_true',
      decide_eq_false_iff_not] at hrec hcross
    rcases hrec with ⟨_, hcool⟩ | ⟨hne, _⟩
    · simpa [cooledFlag] using hcool
    · exact absurd hcross.1 hne
  · intro hrecov
    simp only [processValue, hen, if_true] at hrecov ⊢
    simp [recordedFlag, hrecov]
  · intro hprev hnew
    simp only [processValue, hen, if_true] at hnew ⊢
    simp [recordedFlag, crossedFlag, recoveredFlag, notifyFlag, hprev,
      hnew]

/-- Witness for C5 amended: a still-in-alert evaluation (Scenario A, value
1.05 inside the band while latched low) records nothing and notifies
nothing. -/
theorem c5_transition_recording_gates_witness :
    (processValue defaultGlobals scenarioACfg
      { alert := some { lastState := .low, lastTs := 0 }, lastStored := none }
      (21/20) 5).recorded = false ∧
    (processValue defaultGlobals scenarioACfg
      { alert := some { lastState := .low, lastTs := 0 }, lastStored := none }
      (21/20) 5).st.alert = some { lastState := .low, lastTs := 0 } ∧
    (processValue defaultGlobals scenarioACfg
      { alert := some { lastState := .low, lastTs := 0 }, lastStored := none }
      (21/20) 5).shouldNotify = false := by
  have h := (c5_transition_recording_gates defaultGlobals scenarioACfg
    { alert := some { lastState := .low, lastTs := 0 }, lastStored := none }
    (21/20) 5 rfl).2.2 (by intro h; cases h)
    (by
      norm_num [processValue, newStateOf, prevEntry, evalState, crossedFlag,
    recoveredFlag, notifyFlag, recordedFlag, cooledFlag, storedFlag,
    storeThisAfterDeadband, effHysteresis, effDeadband, cooldownMs,
        scenarioACfg, defaultGlobals]
      intro h
      cases h)
  exact h

/-- C9: a reading is persisted only when the entity has storeHistory = true
(mqttBridge.js line 436 guards the insert with storeThis AND storeHistory),
and with storeHistory = true a recorded (gated) alert transition always
persists the reading (the forced-store override of line 433); in particular
forced storage never persists anything for an entity with
storeHistory = false. -/
theorem c9_insert_requires_store_history (g : Globals) (cfg : SubCfg)
    (st : EntityState) (v now : ℚ) :
    ((processValue g cfg st v now).stored = true → cfg.storeHistory = true) ∧
    (cfg.storeHistory = true → (processValue g cfg st v now).recorded = true →
      (processValue g cfg st v now).stored = true) := by
  constructor
  · intro hst
    cases hen : cfg.alertsEnabled
    · simp only [processValue, hen, Bool.false_eq_true, if_false,
        Bool.and_eq_true] at hst
      exact hst.2
    · simp only [processValue, hen, if_true] at hst
      exact ((storedFlag_iff g cfg st v now).mp hst).1
  · intro hsh hrec
    cases hen : cfg.alertsEnabled
    · simp only [processValue, hen, Bool.false_eq_true, if_false] at hrec
    · simp only [processValue, hen, if_true] at hrec ⊢
      exact (storedFlag_iff g cfg st v now).mpr ⟨hsh, Or.inr hrec⟩

/-- Witness for C9: with storeHistory = false, even a crossing that is
recorded persists nothing (stored = true would force storeHistory = true). -/
theorem c9_insert_requires_store_history_witness :
    ¬ (processValue defaultGlobals
      { storeHistory := false, alertsEnabled := true, alertLow := some 1
      , alertHigh := none, alertCooldownSec := 0, notifyOnRecover := false
      , alertHysteresisMeters := none, noiseDeadbandMeters := none }
      { alert := none, lastStored := none } 0 5).stored = true := by
  intro hst
  have h := (c9_insert_requires_store_history defaultGlobals
    { storeHistory := false, alertsEnabled := true, alertLow := some 1
    , alertHigh := none, alertCooldownSec := 0, notifyOnRecover := false
    , alertHysteresisMeters := none, noiseDeadbandMeters := none }
    { alert := none, lastStored := none } 0 5).1 hst
  cases h

/-- Fold of the handler over a chronological list of (value, time) pairs for
one entity (the per-entity serialization of the message stream). -/
def runSteps (g : Globals) (cfg : SubCfg) : EntityState → List (ℚ × ℚ) → EntityState
  | st, [] => st
  | st, p :: rest => runSteps g cfg (processValue g cfg st p.1 p.2).st rest

/-- The step result at index i of a trace (out-of-range indices read the
default pair and never arise under the bounds hypotheses of the theorems). -/
def stepAt (g : Globals) (cfg : SubCfg) (st0 : EntityState) (tr : List (ℚ × ℚ))
    (i : ℕ) : StepOut :=
  processValue g cfg (runSteps g cfg st0 (tr.take i)) (tr.getD i (0, 0)).1
    (tr.getD i (0, 0)).2

theorem runSteps_append (g : Globals) (cfg : SubCfg) (a b : List (ℚ × ℚ)) :
    ∀ st, runSteps g cfg st (a ++ b) = runSteps g cfg (runSteps g cfg st a) b := by
  induction a with
  | nil => intro st; rfl
  | cons p rest ih => intro st; simp only [List.cons_append, runSteps]; exact ih _

/-- A recorded step writes the evaluated state with the current time into the
lastAlertState entry. -/
theorem recorded_sets_alert (g : Globals) (cfg : SubCfg) (st : EntityState)
    (v now : ℚ) (hrec : (processValue g cfg st v now).recorded = true) :
    (processValue g cfg st v now).st.alert =
      some { lastState := (processValue g cfg st v now).newState, lastTs := now } := by
  cases hen : cfg.alertsEnabled
  · simp only [processValue, hen, Bool.false_eq_true, if_false] at hrec
  · simp only [processValue, hen, if_true] at hrec ⊢
    simp [hrec]

/-- A non-recorded step leaves the lastAlertState entry unchanged. -/
theorem not_recorded_keeps_alert (g : Globals) (cfg : SubCfg) (st : EntityState)
    (v now : ℚ) (hrec : (processValue g cfg st v now).recorded = false) :
    (processValue g cfg st v now).st.alert = st.alert := by
  cases hen : cfg.alertsEnabled
  · simp [processValue, hen]
  · simp only [processValue, hen, if_true] at hrec ⊢
    simp [hrec]

/-- A notification request implies the cooldown comparison succeeded. -/
theorem notifyFlag_cooled (g : Globals) (cfg : SubCfg) (st : EntityState)
    (v now : ℚ) (h : notifyFlag g cfg st v now = true) :
    cooldownMs cfg ≤ now - (prevEntry st).lastTs := by
  have hc : cooledFlag cfg st now = true := by
    unfold notifyFlag at h
    cases hc : cooledFlag cfg st now
    · simp [hc] at h
    · rfl
  unfold cooledFlag at hc
  exact of_decide_eq_true hc

/-- Once the lastAlertState timestamp is at least t0, it stays at least t0
along any suffix of the trace whose times are all at least t0. -/
theorem lastTs_persists (g : Globals) (cfg : SubCfg) (t0 : ℚ) :
    ∀ (tr : List (ℚ × ℚ)) (st : EntityState),
    (∃ e, st.alert = some e ∧ t0 ≤ e.lastTs) →
    (∀ p ∈ tr, t0 ≤ p.2) →
    ∃ e, (runSteps g cfg st tr).alert = some e ∧ t0 ≤ e.lastTs := by
  intro tr
  induction tr with
  | nil => exact fun st h _ => h
  | cons p rest ih =>
    intro st h htimes
    simp only [runSteps]
    apply ih
    · rcases h with ⟨e, he, hle⟩
      cases hrec : (processValue g cfg st p.1 p.2).recorded
      · exact ⟨e, by rw [not_recorded_keeps_alert g cfg st p.1 p.2 hrec]; exact he, hle⟩
      · exact ⟨_, recorded_sets_alert g cfg st p.1 p.2 hrec,
          htimes p (List.mem_cons_self p rest)⟩
    · exact fun q hq => htimes q (List.mem_cons_of_mem p hq)

/-- C2: along any chronologically ordered trace of evaluated values for one
entity, if step i records a gated transition (at time t_i) and a later step j
requests a notification of any kind, crossing or recovery (at time t_j), then
at least cooldownMs have elapsed between the two; contrapositively, no
notification is requested within the cooldown window of the last recorded
transition, no matter how many raw crossings happen in between. -/
theorem c2_cooldown_suppresses_renotify (g : Globals) (cfg : SubCfg)
    (st0 : EntityState) (tr : List (ℚ × ℚ)) (i j : ℕ)
    (hj : j < tr.length) (hij : i < j)
    (hmono : ∀ a b, a ≤ b → b < tr.length →
      (tr.getD a (0, 0)).2 ≤ (tr.getD b (0, 0)).2)
    (hrec : (stepAt g cfg st0 tr i).recorded = true)
    (hnot : (stepAt g cfg st0 tr j).shouldNotify = true) :
    cooldownMs cfg ≤ (tr.getD j (0, 0)).2 - (tr.getD i (0, 0)).2 := by
  have hi : i < tr.length := lt_trans hij hj
  set ti := (tr.getD i (0, 0)).2 with hti
  set tj := (tr.getD j (0, 0)).2 with htj
  -- the state after step i has a lastAlertState entry stamped ti
  have htake : tr.take (i + 1) = tr.take i ++ [tr.getD i (0, 0)] := by
    rw [List.take_succ, List.getD_eq_getElem _ _ hi,
      List.getElem?_eq_getElem hi]
    rfl
  have hstep : runSteps g cfg st0 (tr.take (i + 1)) =
      (stepAt g cfg st0 tr i).st := by
    rw [htake, runSteps_append]
    rfl
  have hentry : ∃ e, (runSteps g cfg st0 (tr.take (i + 1))).alert = some e ∧
      ti ≤ e.lastTs := by
    rw [hstep]
    exact ⟨_, recorded_sets_alert g cfg _ _ _ hrec, le_refl ti⟩
  -- split the prefix before step j at i+1
  have hsplit : tr.take j = tr.take (i + 1) ++ (tr.take j).drop (i + 1) := by
    conv_lhs => rw [← List.take_append_drop (i + 1) (tr.take j)]
    rw [List.take_take, min_eq_left (Nat.succ_le_of_lt hij)]
  have hmid : ∀ p ∈ (tr.take j).drop (i + 1), ti ≤ p.2 := by
    intro p hp
    rcases List.mem_iff_getElem.mp hp with ⟨k, hk, hpk⟩
    have hlen : i + 1 + k < tr.length := by
      have := hk
      simp only [List.length_drop, List.length_take] at this
      omega
    have hidx : ((tr.take j).drop (i + 1))[k] = tr[i + 1 + k] := by
      rw [List.getElem_drop]
      rw [List.getElem_take]
    have hmem : p = tr[i + 1 + k] := by rw [← hpk, hidx]
    have := hmono i (i + 1 + k) (by omega) hlen
    rw [List.getD_eq_getElem _ _ hlen] at this
    rw [hmem]
    exact this
  have hj_entry : ∃ e, (runSteps g cfg st0 (tr.take j)).alert = some e ∧
      ti ≤ e.lastTs := by
    rw [hsplit, runSteps_append]
    exact lastTs_persists g cfg ti _ _ hentry hmid
  rcases hj_entry with ⟨e, he, hle⟩
  have hnotf : notifyFlag g cfg (runSteps g cfg st0 (tr.take j))
      (tr.getD j (0, 0)).1 tj = true := by
    cases hen : cfg.alertsEnabled
    · simp only [stepAt, processValue, hen, Bool.false_eq_true, if_false] at hnot
    · simp only [stepAt, processValue, hen, if_true] at hnot
      exact hnot
  have hcool := notifyFlag_cooled g cfg _ _ _ hnotf
  have hpe : prevEntry (runSteps g cfg st0 (tr.take j)) = e := by
    simp [prevEntry, he]
  rw [hpe] at hcool
  linarith

/-- Configuration of the C2 witness trace: low threshold 1, cooldown 10 s,
notifyOnRecover set. -/
def c2WitnessCfg : SubCfg :=
  { storeHistory := false, alertsEnabled := true, alertLow := some 1
  , alertHigh := none, alertCooldownSec := 10, notifyOnRecover := true
  , alertHysteresisMeters := none, noiseDeadbandMeters := none }

/-- The C2 witness trace: a crossing into low at t = 20000 ms followed by a
recovery at t = 40000 ms. -/
def c2WitnessTrace : List (ℚ × ℚ) := [(1/2, 20000), (2, 40000)]

/-- Witness for C2: on the concrete two-step trace, step 0 records a crossing
and step 1 requests a recovery notification, so the theorem yields the
concrete cooldown gap, discharging every hypothesis at this input. -/
theorem c2_cooldown_suppresses_renotify_witness :
    cooldownMs c2WitnessCfg ≤
      (c2WitnessTrace.getD 1 (0, 0)).2 - (c2WitnessTrace.getD 0 (0, 0)).2 := by
  apply c2_cooldown_suppresses_renotify defaultGlobals c2WitnessCfg
    { alert := none, lastStored := none } c2WitnessTrace 0 1
    (by norm_num [c2WitnessTrace]) (by norm_num)
  · intro a b hab hb
    simp only [c2WitnessTrace, List.length_cons, List.length_nil] at hb
    interval_cases b <;> interval_cases a <;>
      norm_num [c2WitnessTrace, List.getD]
  · norm_num [stepAt, runSteps, processValue, recordedFlag, crossedFlag,
      recoveredFlag, cooledFlag, notifyFlag, newStateOf, prevEntry, evalState,
      effHysteresis, effDeadband, cooldownMs, c2WitnessCfg, defaultGlobals,
      c2WitnessTrace, List.getD]
  · norm_num [stepAt, runSteps, processValue, recordedFlag, crossedFlag,
      recoveredFlag, cooledFlag, notifyFlag, storedFlag, storeThisAfterDeadband,
      newStateOf, prevEntry, evalState, effHysteresis, effDeadband, cooldownMs,
      c2WitnessCfg, defaultGlobals, c2WitnessTrace, List.getD]
    right
    intro h
    cases h

/-- A stored step writes the value with the current time into the
lastStoredReading entry. -/
theorem stored_sets_lastStored (g : Globals) (cfg : SubCfg) (st : EntityState)
    (v now : ℚ) (h : (processValue g cfg st v now).stored = true) :
    (processValue g cfg st v now).st.lastStored =
      some { value := v, ts := now } := by
  cases hen : cfg.alertsEnabled <;>
    simp only [processValue, hen, if_true, Bool.false_eq_true, if_false] at h ⊢ <;>
    simp [h]

/-- A non-stored step leaves the lastStoredReading entry unchanged. -/
theorem not_stored_keeps_lastStored (g : Globals) (cfg : SubCfg)
    (st : EntityState) (v now : ℚ)
    (h : (processValue g cfg st v now).stored = false) :
    (processValue g cfg st v now).st.lastStored = st.lastStored := by
  cases hen : cfg.alertsEnabled <;>
    simp only [processValue, hen, if_true, Bool.false_eq_true, if_false] at h ⊢ <;>
    simp [h]

/-- The first reading of an entity (no prior stored value) is always marked
for storage when history is enabled. -/
theorem step_stored_of_none (g : Globals) (cfg : SubCfg) (st : EntityState)
    (v now : ℚ) (hsh : cfg.storeHistory = true) (h0 : st.lastStored = none) :
    (processValue g cfg st v now).stored = true := by
  have hs1 : storeThisAfterDeadband g cfg st v = true := by
    simp [storeThisAfterDeadband, h0, hsh]
  cases hen : cfg.alertsEnabled
  · simp [processValue, hen, hs1, hsh]
  · simp only [processValue, hen, if_true]
    exact (storedFlag_iff g cfg st v now).mpr ⟨hsh, Or.inl hs1⟩

/-- Once a stored value exists it never disappears along a trace. -/
theorem runSteps_keeps_some (g : Globals) (cfg : SubCfg) :
    ∀ (tr : List (ℚ × ℚ)) (st : EntityState),
    (∃ s, st.lastStored = some s) →
    ∃ s, (runSteps g cfg st tr).lastStored = some s := by
  intro tr
  induction tr with
  | nil => exact fun st h => h
  | cons p rest ih =>
    intro st h
    simp only [runSteps]
    apply ih
    cases hstored : (processValue g cfg st p.1 p.2).stored
    · rcases h with ⟨s, hs⟩
      exact ⟨s, by rw [not_stored_keeps_lastStored g cfg st p.1 p.2 hstored]; exact hs⟩
    · exact ⟨_, stored_sets_lastStored g cfg st p.1 p.2 hstored⟩

/-- Any property of values that holds for the initial stored value and for
every value of the trace holds for the stored value after the trace. -/
theorem lastStored_values (g : Globals) (cfg : SubCfg) (Q : ℚ → Prop) :
    ∀ (tr : List (ℚ × ℚ)) (st : EntityState),
    (∀ s, st.lastStored = some s → Q s.value) →
    (∀ p ∈ tr, Q p.1) →
    ∀ s, (runSteps g cfg st tr).lastStored = some s → Q s.value := by
  intro tr
  induction tr with
  | nil => exact fun st h _ => h
  | cons p rest ih =>
    intro st h hq
    simp only [runSteps]
    apply ih
    · intro s hs
      cases hstored : (processValue g cfg st p.1 p.2).stored
      · rw [not_stored_keeps_lastStored g cfg st p.1 p.2 hstored] at hs
        exact h s hs
      · rw [stored_sets_lastStored g cfg st p.1 p.2 hstored] at hs
        have hv : ({ value := p.1, ts := p.2 } : StoredReading) = s := by
          injection hs
        rw [← hv]
        exact hq p (List.mem_cons_self p rest)
    · exact fun q hq2 => hq q (List.mem_cons_of_mem p hq2)

/-- A reading closer to the stored baseline than the effective deadband is
suppressed by the deadband check. -/
theorem suppressed_of_close (g : Globals) (cfg : SubCfg) (st : EntityState)
    (v : ℚ) (s : StoredReading) (hsh : cfg.storeHistory = true)
    (hs : st.lastStored = some s) (hd : |s.value - v| < effDeadband g cfg) :
    storeThisAfterDeadband g cfg st v = false := by
  simp [storeThisAfterDeadband, hs, hsh, hd]

/-- When the deadband suppressed a reading, it is stored exactly when the
transition-recording block forces it. -/
theorem stored_iff_recorded_of_suppressed (g : Globals) (cfg : SubCfg)
    (st : EntityState) (v now : ℚ) (hsh : cfg.storeHistory = true)
    (hsupp : storeThisAfterDeadband g cfg st v = false) :
    ((processValue g cfg st v now).stored = true ↔
      (processValue g cfg st v now).recorded = true) := by
  cases hen : cfg.alertsEnabled
  · simp [processValue, hen, hsupp]
  · simp only [processValue, hen, if_true]
    constructor
    · intro h
      rcases ((storedFlag_iff g cfg st v now).mp h).2 with h1 | h2
      · rw [hsupp] at h1
        cases h1
      · exact h2
    · intro h
      exact (storedFlag_iff g cfg st v now).mpr ⟨hsh, Or.inr h⟩

/-- C4: for an entity with history enabled (the regime in which storage
marking is defined — see C9 for storeHistory = false, where nothing is ever
stored) and no prior stored value, along any trace whose values all lie
within the effective deadband of each other, a step is marked for storage
iff it is the first reading or it carries a gated (recorded) alert
transition: the first reading is always stored, every later one is
suppressed by the deadband unless the transition-recording block forces
it. -/
theorem c4_deadband_only_first_or_forced (g : Globals) (cfg : SubCfg)
    (st0 : EntityState) (tr : List (ℚ × ℚ))
    (hsh : cfg.storeHistory = true) (h0 : st0.lastStored = none)
    (hpair : ∀ a b, a < tr.length → b < tr.length →
      |(tr.getD a (0, 0)).1 - (tr.getD b (0, 0)).1| < effDeadband g cfg)
    (k : ℕ) (hk : k < tr.length) :
    ((stepAt g cfg st0 tr k).stored = true ↔
      (k = 0 ∨ (stepAt g cfg st0 tr k).recorded = true)) := by
  cases k with
  | zero =>
    have hst : (stepAt g cfg st0 tr 0).stored = true := by
      unfold stepAt
      simp only [List.take_zero, runSteps]
      exact step_stored_of_none g cfg st0 _ _ hsh h0
    simp [hst]
  | succ n =>
    set Sk := runSteps g cfg st0 (tr.take (n + 1)) with hSk
    have hne : tr.take (n + 1) ≠ [] := by
      have hlt : (tr.take (n + 1)).length = n + 1 := by
        rw [List.length_take]
        omega
      intro hcon
      rw [hcon] at hlt
      simp at hlt
    obtain ⟨p, rest, hcons⟩ := List.exists_cons_of_ne_nil hne
    have hsome : ∃ s, Sk.lastStored = some s := by
      rw [hSk, hcons]
      simp only [runSteps]
      apply runSteps_keeps_some
      exact ⟨_, stored_sets_lastStored g cfg st0 p.1 p.2
        (step_stored_of_none g cfg st0 p.1 p.2 hsh h0)⟩
    rcases hsome with ⟨s, hs⟩
    have hQ : ∃ a, a < tr.length ∧ (tr.getD a (0, 0)).1 = s.value := by
      refine lastStored_values g cfg
        (fun x => ∃ a, a < tr.length ∧ (tr.getD a (0, 0)).1 = x)
        (tr.take (n + 1)) st0 ?_ ?_ s (by rw [← hSk]; exact hs)
      · intro s' hs'
        rw [h0] at hs'
        cases hs'
      · intro q hq
        rcases List.mem_iff_getElem.mp (List.mem_of_mem_take hq) with ⟨a, ha, hqa⟩
        exact ⟨a, ha, by rw [List.getD_eq_getElem _ _ ha, hqa]⟩
    rcases hQ with ⟨a, ha, hval⟩
    have hclose : |s.value - (tr.getD (n + 1) (0, 0)).1| < effDeadband g cfg := by
      rw [← hval]
      exact hpair a (n + 1) ha hk
    have hsupp := suppressed_of_close g cfg Sk _ s hsh hs hclose
    have hiff := stored_iff_recorded_of_suppressed g cfg Sk
      (tr.getD (n + 1) (0, 0)).1 (tr.getD (n + 1) (0, 0)).2 hsh hsupp
    unfold stepAt
    rw [← hSk]
    constructor
    · intro h
      exact Or.inr (hiff.mp h)
    · rintro (h | h)
      · exact absurd h (Nat.succ_ne_zero n)
      · exact hiff.mpr h

/-- Witness for C4: with history enabled, alerts disabled and readings 2.000
and 2.001 m (inside the default 3 mm deadband), the theorem applied at k = 0
yields that the first reading is marked for storage. -/
theorem c4_deadband_only_first_or_forced_witness :
    (stepAt defaultGlobals
      { storeHistory := true, alertsEnabled := false, alertLow := none
      , alertHigh := none, alertCooldownSec := 0, notifyOnRecover := false
      , alertHysteresisMeters := none, noiseDeadbandMeters := none }
      { alert := none, lastStored := none }
      [(2, 0), (2 + 1/1000, 1000)] 0).stored = true := by
  apply (c4_deadband_only_first_or_forced defaultGlobals
    { storeHistory := true, alertsEnabled := false, alertLow := none
    , alertHigh := none, alertCooldownSec := 0, notifyOnRecover := false
    , alertHysteresisMeters := none, noiseDeadbandMeters := none }
    { alert := none, lastStored := none }
    [(2, 0), (2 + 1/1000, 1000)] rfl rfl ?_ 0 (by norm_num)).mpr (Or.inl rfl)
  intro a b ha hb
  simp only [List.length_cons, List.length_nil] at ha hb
  interval_cases a <;> interval_cases b <;>
    norm_num [List.getD, effDeadband, defaultGlobals, abs_lt]

/-
  Model of the synchronization pass refreshBridgeProjects (mqttBridge.js lines
  325-511).  JS Maps are modelled as insertion-ordered association lists; JS
  string truthiness (empty string is falsy) is modelled by using none for
  missing or empty strings.
-/

/-- The environment overrides read by clientConfigForProject: MQTT_URL,
MQTT_USERNAME, MQTT_PASSWORD. -/
structure Env where
  mqttUrl : Option String
  mqttUsername : Option String
  mqttPassword : Option String
deriving DecidableEq, Repr

/-- One element of the list built by upsertProjectsFromDb (defaults already
applied).  The sensorType, tankType, userId, multiplier and offset fields the
source also carries are not consulted by any refresh claim and are omitted;
the handler fields are grouped in cfg. -/
structure Project where
  projectId : String
  projectName : String
  topic : String
  broker : Option String
  port : ℕ
  username : Option String
  password : Option String
  cfg : SubCfg
deriving DecidableEq, Repr

/-- The result of clientConfigForProject (mqttBridge.js lines 329-337). -/
structure ClientConfig where
  key : String
  url : String
  username : Option String
  password : Option String
deriving DecidableEq, Repr

/-- clientConfigForProject: URL from MQTT_URL else tcp://broker:port (when
broker and port are truthy), username and password from the environment else
the project, and the connection key URL ++ "::" ++ (username or empty). -/
def clientConfigForProject (env : Env) (p : Project) : Option ClientConfig :=
  let url? : Option String :=
    match env.mqttUrl with
    | some u => some u
    | none =>
      match p.broker with
      | some b => if p.port ≠ 0 then some ("tcp://" ++ b ++ ":" ++ toString p.port) else none
      | none => none
  match url? with
  | none => none
  | some url =>
    let username : Option String :=
      match env.mqttUsername with
      | some u => some u
      | none => p.username
    let password : Option String :=
      match env.mqttPassword with
      | some pw => some pw
      | none => p.password
    some { key := url ++ "::" ++ username.getD "", url := url
         , username := username, password := password }

/-- The per-connection entry of the clients map: the credentials the mqtt
client was created with and its topic index (topic to set of project IDs). -/
structure BClient where
  username : Option String
  password : Option String
  topicToProjects : List (String × List String)
deriving DecidableEq, Repr

/-- The value of a currentSubs entry (mqttBridge.js line 489). -/
structure SubRec where
  topic : String
  clientKey : String
  cfg : SubCfg
  projectName : String
deriving DecidableEq, Repr

/-- The mutable bridge state touched by a synchronization pass: the clients
map and the currentSubs map. -/
structure BridgeState where
  clients : List (String × BClient)
  currentSubs : List (String × SubRec)
deriving DecidableEq, Repr

/-- Lookup in an insertion-ordered association list (JS Map.get). -/
def alookup (k : String) : List (String × α) → Option α
  | [] => none
  | (k1, v) :: rest => if k1 = k then some v else alookup k rest

/-- Replace the value at an existing key in place (JS Map.set on a present
key keeps the insertion position). -/
def aupdate (k : String) (v : α) : List (String × α) → List (String × α)
  | [] => []
  | (k1, v1) :: rest =>
    if k1 = k then (k1, v) :: rest else (k1, v1) :: aupdate k v rest

/-- JS Map.set: replace in place when present, append otherwise. -/
def aupsert (k : String) (v : α) (l : List (String × α)) : List (String × α) :=
  if (alookup k l).isSome then aupdate k v l else l ++ [(k, v)]

/-- The desired connection keys of a pass (the requiredKeys set, in project
order; only membership matters). -/
def requiredKeys (env : Env) (list : List Project) : List String :=
  list.filterMap (fun p => (clientConfigForProject env p).map (fun c => c.key))

/-- The first loop of refreshBridgeProjects (mqttBridge.js lines 340-478):
create a client for every required key not yet present.  Returns the new
clients map and the list of keys for which a connection was created. -/
def createPhase (env : Env) :
    List Project → List (String × BClient) → List (String × BClient) × List String
  | [], cs => (cs, [])
  | p :: rest, cs =>
    match clientConfigForProject env p with
    | none => createPhase env rest cs
    | some c =>
      if (alookup c.key cs).isSome then createPhase env rest cs
      else
        let step := createPhase env rest
          (cs ++ [(c.key, { username := c.username, password := c.password
                          , topicToProjects := [] })])
        (step.1, c.key :: step.2)

/-- The pruning loop (mqttBridge.js lines 479-481): close and drop every
client whose key is no longer required.  Returns the kept clients and the
list of closed keys. -/
def prunePhase (req : List String) (cs : List (String × BClient)) :
    List (String × BClient) × List String :=
  (cs.filter (fun e => decide (e.1 ∈ req)),
    (cs.filter (fun e => !decide (e.1 ∈ req))).map (fun e => e.1))

/-- Add a project ID to the topic index of one client (mqttBridge.js lines
487-488): create the topic entry when absent, then add the ID to its set. -/
def addProjectTopic (tps : List (String × List String)) (topic pid : String) :
    List (String × List String) :=
  match alookup topic tps with
  | none => tps ++ [(topic, [pid])]
  | some s => aupdate topic (if pid ∈ s then s else s ++ [pid]) tps

/-- The currentSubs value built from a project (mqttBridge.js line 489). -/
def mkSubRec (key : String) (p : Project) : SubRec :=
  { topic := p.topic, clientKey := key, cfg := p.cfg
  , projectName := p.projectName }

/-- The second loop of refreshBridgeProjects (mqttBridge.js lines 482-508):
for every project whose client exists, add it to the topic index of that
client and upsert its currentSubs entry. -/
def topicPhase (env : Env) :
    List Project → List (String × BClient) → List (String × SubRec) →
    List (String × BClient) × List (String × SubRec)
  | [], cs, subs => (cs, subs)
  | p :: rest, cs, subs =>
    match clientConfigForProject env p with
    | none => topicPhase env rest cs subs
    | some c =>
      match alookup c.key cs with
      | none => topicPhase env rest cs subs
      | some cl =>
        topicPhase env rest
          (aupdate c.key
            { cl with topicToProjects :=
                addProjectTopic cl.topicToProjects p.topic p.projectId } cs)
          (aupsert p.projectId (mkSubRec c.key p) subs)

/-- One synchronization pass (mqttBridge.js lines 325-511): create missing
clients, close unrequired ones, rebuild topic memberships and currentSubs,
then prune currentSubs entries whose project left the list.  Returns the new
state, the created keys and the closed keys. -/
def refresh (env : Env) (list : List Project) (s : BridgeState) :
    BridgeState × List String × List String :=
  let created := createPhase env list s.clients
  let pruned := prunePhase (requiredKeys env list) created.1
  let topiced := topicPhase env list pruned.1 s.currentSubs
  let subs2 := topiced.2.filter
    (fun e => list.any (fun p => decide (p.projectId = e.1)))
  ({ clients := topiced.1, currentSubs := subs2 }, created.2, pruned.2)

theorem alookup_isSome_iff (k : String) (l : List (String × α)) :
    (alookup k l).isSome = true ↔ k ∈ l.map Prod.fst := by
  induction l with
  | nil => simp [alookup]
  | cons e rest ih =>
    by_cases h : e.1 = k
    · simp [alookup, h]
    · have h2 : ¬ k = e.1 := fun hc => h hc.symm
      simp [alookup, h, h2, ih]

theorem aupdate_keys (k : String) (v : α) (l : List (String × α)) :
    (aupdate k v l).map Prod.fst = l.map Prod.fst := by
  induction l with
  | nil => rfl
  | cons e rest ih =>
    by_cases h : e.1 = k <;> simp [aupdate, h, ih]

theorem alookup_aupdate_self (k : String) (v : α) (l : List (String × α))
    (h : (alookup k l).isSome = true) : alookup k (aupdate k v l) = some v := by
  induction l with
  | nil => simp [alookup] at h
  | cons e rest ih =>
    by_cases he : e.1 = k
    · simp [aupdate, alookup, he]
    · simp only [alookup, he, if_false, aupdate, if_neg he] at h ⊢
      exact ih h

theorem alookup_aupdate_ne (k k1 : String) (v : α) (l : List (String × α))
    (h : k1 ≠ k) : alookup k1 (aupdate k v l) = alookup k1 l := by
  induction l with
  | nil => rfl
  | cons e rest ih =>
    by_cases he : e.1 = k
    · subst he
      have : ¬ e.1 = k1 := fun hc => h hc.symm
      simp [aupdate, alookup, this]
    · simp only [aupdate, if_neg he, alookup]
      by_cases he1 : e.1 = k1 <;> simp [he1, ih]

theorem createPhase_keys_mono (env : Env) (k : String) :
    ∀ (l : List Project) (cs : List (String × BClient)),
    k ∈ cs.map Prod.fst → k ∈ (createPhase env l cs).1.map Prod.fst := by
  intro l
  induction l with
  | nil => exact fun cs h => h
  | cons p rest ih =>
    intro cs h
    simp only [createPhase]
    cases hc : clientConfigForProject env p with
    | none => exact ih cs h
    | some c =>
      cases hl : (alookup c.key cs).isSome
      · simp only [hl, Bool.false_eq_true, if_false]
        apply ih
        simp [h]
      · simp only [hl, if_true]
        exact ih cs h

theorem createPhase_complete (env : Env) (k : String) :
    ∀ (l : List Project) (cs : List (String × BClient)),
    k ∈ requiredKeys env l → k ∈ (createPhase env l cs).1.map Prod.fst := by
  intro l
  induction l with
  | nil => intro cs h; simp [requiredKeys] at h
  | cons p rest ih =>
    intro cs h
    simp only [createPhase]
    cases hc : clientConfigForProject env p with
    | none =>
      simp only [requiredKeys, List.filterMap_cons, hc] at h
      exact ih cs h
    | some c =>
      simp only [requiredKeys, List.filterMap_cons, hc, Option.map_some] at h
      cases hl : (alookup c.key cs).isSome
      · simp only [hl, Bool.false_eq_true, if_false]
        rcases List.mem_cons.mp h with h1 | h2
        · apply createPhase_keys_mono
          subst h1
          simp
        · exact ih _ h2
      · simp only [hl, if_true]
        rcases List.mem_cons.mp h with h1 | h2
        · apply createPhase_keys_mono
          subst h1
          exact (alookup_isSome_iff c.key cs).mp hl
        · exact ih cs h2

theorem createPhase_keys_sub (env : Env) (k : String) :
    ∀ (l : List Project) (cs : List (String × BClient)),
    k ∈ (createPhase env l cs).1.map Prod.fst →
    k ∈ cs.map Prod.fst ∨ k ∈ requiredKeys env l := by
  intro l
  induction l with
  | nil => exact fun cs h => Or.inl h
  | cons p rest ih =>
    intro cs h
    simp only [createPhase] at h
    cases hc : clientConfigForProject env p with
    | none =>
      rw [hc] at h
      rcases ih cs h with h1 | h2
      · exact Or.inl h1
      · right
        simp only [requiredKeys, List.filterMap_cons, hc]
        exact h2
    | some c =>
      simp only [hc] at h
      have hreq :
          requiredKeys env (p :: rest) = c.key :: requiredKeys env rest := by
        simp [requiredKeys, List.filterMap_cons, hc]
      cases hl : (alookup c.key cs).isSome
      · simp only [hl, Bool.false_eq_true, if_false] at h
        rcases ih _ h with h1 | h2
        · simp only [List.map_append, List.mem_append, List.map_cons,
            List.map_nil, List.mem_singleton] at h1
          rcases h1 with h1a | h1b
          · exact Or.inl h1a
          · right
            rw [hreq, h1b]
            exact List.mem_cons_self c.key _
        · right
          rw [hreq]
          exact List.mem_cons_of_mem c.key h2
      · simp only [hl, if_true] at h
        rcases ih cs h with h1 | h2
        · exact Or.inl h1
        · right
          rw [hreq]
          exact List.mem_cons_of_mem c.key h2

theorem createPhase_nodup (env : Env) :
    ∀ (l : List Project) (cs : List (String × BClient)),
    (cs.map Prod.fst).Nodup → ((createPhase env l cs).1.map Prod.fst).Nodup := by
  intro l
  induction l with
  | nil => exact fun cs h => h
  | cons p rest ih =>
    intro cs h
    simp only [createPhase]
    cases hc : clientConfigForProject env p with
    | none => exact ih cs h
    | some c =>
      cases hl : (alookup c.key cs).isSome
      · simp only [hl, Bool.false_eq_true, if_false]
        apply ih
        have hnotmem : c.key ∉ cs.map Prod.fst := by
          intro hmem
          rw [← alookup_isSome_iff c.key cs] at hmem
          rw [hmem] at hl
          cases hl
        simp [List.nodup_append, h, hnotmem]
      · simp only [hl, if_true]
        exact ih cs h

theorem createPhase_nocreate (env : Env) :
    ∀ (l : List Project) (cs : List (String × BClient)),
    (∀ k ∈ requiredKeys env l, k ∈ cs.map Prod.fst) →
    createPhase env l cs = (cs, []) := by
  intro l
  induction l with
  | nil => exact fun cs _ => rfl
  | cons p rest ih =>
    intro cs h
    simp only [createPhase]
    cases hc : clientConfigForProject env p with
    | none =>
      apply ih
      intro k hk
      apply h
      simp only [requiredKeys, List.filterMap_cons, hc]
      exact hk
    | some c =>
      have hmem : c.key ∈ cs.map Prod.fst := by
        apply h
        simp [requiredKeys, List.filterMap_cons, hc]
      have hl : (alookup c.key cs).isSome = true :=
        (alookup_isSome_iff c.key cs).mpr hmem
      simp only [hl, if_true]
      apply ih
      intro k hk
      apply h
      simp only [requiredKeys, List.filterMap_cons, hc, Option.map_some]
      exact List.mem_cons_of_mem c.key hk

theorem prunePhase_mem (req : List String) (cs : List (String × BClient))
    (k : String) :
    k ∈ (prunePhase req cs).1.map Prod.fst ↔
      k ∈ cs.map Prod.fst ∧ k ∈ req := by
  constructor
  · intro hk
    rcases List.mem_map.mp hk with ⟨e, he, hek⟩
    rcases List.mem_filter.mp he with ⟨hecs, hreq⟩
    refine ⟨hek ▸ List.mem_map_of_mem Prod.fst hecs, ?_⟩
    rw [← hek]
    exact of_decide_eq_true hreq
  · rintro ⟨hcs, hreq⟩
    rcases List.mem_map.mp hcs with ⟨e, he, hek⟩
    refine List.mem_map.mpr ⟨e, List.mem_filter.mpr ⟨he, ?_⟩, hek⟩
    rw [hek]
    exact decide_eq_true hreq

theorem prunePhase_all_kept (req : List String) (cs : List (String × BClient))
    (h : ∀ k ∈ cs.map Prod.fst, k ∈ req) : prunePhase req cs = (cs, []) := by
  unfold prunePhase
  have h1 : cs.filter (fun e => decide (e.1 ∈ req)) = cs := by
    apply List.filter_eq_self.mpr
    intro e he
    exact decide_eq_true (h e.1 (List.mem_map_of_mem Prod.fst he))
  have h2 : cs.filter (fun e => !decide (e.1 ∈ req)) = [] := by
    apply List.filter_eq_nil_iff.mpr
    intro e he
    simp [h e.1 (List.mem_map_of_mem Prod.fst he)]
  rw [h1, h2]
  rfl

theorem prunePhase_nodup (req : List String) (cs : List (String × BClient))
    (h : (cs.map Prod.fst).Nodup) :
    ((prunePhase req cs).1.map Prod.fst).Nodup := by
  apply List.Nodup.sublist _ h
  exact List.Sublist.map Prod.fst (List.filter_sublist cs)

theorem topicPhase_keys (env : Env) :
    ∀ (l : List Project) (cs : List (String × BClient))
      (subs : List (String × SubRec)),
    (topicPhase env l cs subs).1.map Prod.fst = cs.map Prod.fst := by
  intro l
  induction l with
  | nil => intro cs subs; rfl
  | cons p rest ih =>
    intro cs subs
    simp only [topicPhase]
    cases hc : clientConfigForProject env p with
    | none =>
      simp only [hc]
      exact ih cs subs
    | some c =>
      simp only [hc]
      cases hl : alookup c.key cs with
      | none =>
        simp only [hl]
        exact ih cs subs
      | some cl =>
        simp only [hl]
        rw [ih, aupdate_keys]

theorem refresh_keys (env : Env) (l : List Project) (s : BridgeState)
    (k : String) :
    k ∈ (refresh env l s).1.clients.map Prod.fst ↔ k ∈ requiredKeys env l := by
  simp only [refresh]
  rw [topicPhase_keys]
  constructor
  · intro h
    exact ((prunePhase_mem _ _ _).mp h).2
  · intro h
    exact (prunePhase_mem _ _ _).mpr ⟨createPhase_complete env k l s.clients h, h⟩

/-- The topic loop never touches the credentials a client was created with:
it only rewrites the topic index of existing entries. -/
theorem topicPhase_preserves_creds (env : Env) :
    ∀ (l : List Project) (cs : List (String × BClient))
      (subs : List (String × SubRec)) (k : String) (cl : BClient),
    alookup k cs = some cl →
    ∃ cl2, alookup k (topicPhase env l cs subs).1 = some cl2 ∧
      cl2.username = cl.username ∧ cl2.password = cl.password := by
  intro l
  induction l with
  | nil => exact fun cs subs k cl h => ⟨cl, h, rfl, rfl⟩
  | cons p rest ih =>
    intro cs subs k cl h
    simp only [topicPhase]
    cases hc : clientConfigForProject env p with
    | none =>
      simp only [hc]
      exact ih cs subs k cl h
    | some c =>
      simp only [hc]
      cases hl : alookup c.key cs with
      | none =>
        simp only [hl]
        exact ih cs subs k cl h
      | some cl1 =>
        simp only [hl]
        by_cases hk : k = c.key
        · subst hk
          rw [h] at hl
          injection hl with hl1
          have hupd : alookup c.key (aupdate c.key
              { cl1 with topicToProjects :=
                  addProjectTopic cl1.topicToProjects p.topic p.projectId } cs) =
              some { cl1 with topicToProjects :=
                  addProjectTopic cl1.topicToProjects p.topic p.projectId } :=
            alookup_aupdate_self c.key _ cs (by rw [h]; rfl)
          obtain ⟨cl2, h2, hu, hpw⟩ := ih _ _ c.key _ hupd
          refine ⟨cl2, h2, ?_, ?_⟩
          · rw [hu, ← hl1]
          · rw [hpw, ← hl1]
        · have hupd := alookup_aupdate_ne c.key k
            { cl1 with topicToProjects :=
                addProjectTopic cl1.topicToProjects p.topic p.projectId } cs hk
          exact ih _ _ k cl (by rw [hupd]; exact h)

/-- Converging again with the same project list creates no connection and
closes none. -/
theorem refresh_again_no_churn (env : Env) (l : List Project) (s : BridgeState) :
    (refresh env l (refresh env l s).1).2.1 = [] ∧
    (refresh env l (refresh env l s).1).2.2 = [] := by
  set s1 := (refresh env l s).1 with hs1
  have hkeys : ∀ k ∈ s1.clients.map Prod.fst, k ∈ requiredKeys env l :=
    fun k hk => (refresh_keys env l s k).mp hk
  have hreq : ∀ k ∈ requiredKeys env l, k ∈ s1.clients.map Prod.fst :=
    fun k hk => (refresh_keys env l s k).mpr hk
  have hcreate : createPhase env l s1.clients = (s1.clients, []) :=
    createPhase_nocreate env l s1.clients hreq
  have hprune : prunePhase (requiredKeys env l) s1.clients =
      (s1.clients, []) :=
    prunePhase_all_kept _ _ hkeys
  constructor
  · simp only [refresh]
    rw [hcreate]
  · simp only [refresh]
    rw [hcreate, hprune]

/-- C7: (1) refreshBridgeProjects keeps the clients map free of duplicate
connection keys, so at any time there is at most one live connection per key;
(2) two entities with the same (endpoint, credential identity) but different
topics converge to exactly one connection carrying two topic-index entries;
(3) converging again with an unchanged project list (hence unchanged desired
key set) creates no connection and closes none. -/
theorem c7_one_connection_per_key :
    (∀ (env : Env) (l : List Project) (s : BridgeState),
      (s.clients.map Prod.fst).Nodup →
      ((refresh env l s).1.clients.map Prod.fst).Nodup) ∧
    (∀ (env : Env) (p1 p2 : Project) (c1 c2 : ClientConfig),
      clientConfigForProject env p1 = some c1 →
      clientConfigForProject env p2 = some c2 →
      c1.key = c2.key → p1.topic ≠ p2.topic → p1.projectId ≠ p2.projectId →
      ∃ cl, (refresh env [p1, p2]
          { clients := [], currentSubs := [] }).1.clients = [(c1.key, cl)] ∧
        cl.topicToProjects.length = 2) ∧
    (∀ (env : Env) (l : List Project) (s : BridgeState),
      (refresh env l (refresh env l s).1).2.1 = [] ∧
      (refresh env l (refresh env l s).1).2.2 = []) := by
  refine ⟨?_, ?_, ?_⟩
  · intro env l s h
    simp only [refresh]
    rw [topicPhase_keys]
    exact prunePhase_nodup _ _ (createPhase_nodup env l s.clients h)
  · intro env p1 p2 c1 c2 h1 h2 hkey ht hid
    simp [refresh, createPhase, prunePhase, topicPhase, requiredKeys,
      alookup, aupsert, aupdate, addProjectTopic, mkSubRec, h1, h2, ← hkey,
      ht, hid]
  · exact refresh_again_no_churn

/-- Environment for the concrete synchronization fixtures: MQTT_URL override
set to "u", no credential overrides. -/
def wEnv : Env := { mqttUrl := some "u", mqttUsername := none, mqttPassword := none }

/-- Handler configuration of the concrete fixtures (history only). -/
def wCfg : SubCfg :=
  { storeHistory := true, alertsEnabled := false, alertLow := none
  , alertHigh := none, alertCooldownSec := 0, notifyOnRecover := false
  , alertHysteresisMeters := none, noiseDeadbandMeters := none }

/-- Fixture entity A on topic tA. -/
def wProjectA : Project :=
  { projectId := "A", projectName := "", topic := "tA", broker := none
  , port := 1883, username := none, password := none, cfg := wCfg }

/-- Fixture entity B on topic tB, same broker identity as A. -/
def wProjectB : Project :=
  { projectId := "B", projectName := "", topic := "tB", broker := none
  , port := 1883, username := none, password := none, cfg := wCfg }

/-- Witness for C7: on the concrete fixtures the three parts instantiate to a
duplicate-free key list, a single connection with two topic entries, and an
idempotent second pass. -/
theorem c7_one_connection_per_key_witness :
    ((refresh wEnv [wProjectA]
      { clients := [], currentSubs := [] }).1.clients.map Prod.fst).Nodup ∧
    (∃ cl, (refresh wEnv [wProjectA, wProjectB]
        { clients := [], currentSubs := [] }).1.clients = [("u::", cl)] ∧
      cl.topicToProjects.length = 2) ∧
    (refresh wEnv [wProjectA]
      (refresh wEnv [wProjectA] { clients := [], currentSubs := [] }).1).2.1 = [] ∧
    (refresh wEnv [wProjectA]
      (refresh wEnv [wProjectA] { clients := [], currentSubs := [] }).1).2.2 = [] := by
  refine ⟨c7_one_connection_per_key.1 wEnv [wProjectA] _ (by simp), ?_,
    c7_one_connection_per_key.2.2 wEnv [wProjectA] _⟩
  exact c7_one_connection_per_key.2.1 wEnv wProjectA wProjectB
    ⟨"u::", "u", none, none⟩ ⟨"u::", "u", none, none⟩ rfl rfl rfl
    (by decide) (by decide)

/-- The connection key of any produced client configuration is built from the
URL and the username only (mqttBridge.js line 335). -/
theorem clientConfig_key_shape (env : Env) (p : Project) (cp : ClientConfig)
    (h : clientConfigForProject env p = some cp) :
    cp.key = cp.url ++ "::" ++ cp.username.getD "" := by
  unfold clientConfigForProject at h
  repeat' split at h
  all_goals
    first
      | (injection h with h1; subst h1; rfl)
      | cases h

/-- C10: the connection identity key is computed from the broker URL and
username only — the password does not enter the key — so two entities with
equal URL and username but different passwords converge onto the same single
connection, created with the credentials (hence the password) of the entity
processed first. -/
theorem c10_key_ignores_password :
    (∀ (env : Env) (p q : Project) (cp cq : ClientConfig),
      clientConfigForProject env p = some cp →
      clientConfigForProject env q = some cq →
      cp.url = cq.url → cp.username = cq.username → cp.key = cq.key) ∧
    (∀ (env : Env) (p1 p2 : Project) (c1 c2 : ClientConfig),
      clientConfigForProject env p1 = some c1 →
      clientConfigForProject env p2 = some c2 →
      c1.key = c2.key →
      ∃ cl, alookup c1.key
          (refresh env [p1, p2]
            { clients := [], currentSubs := [] }).1.clients = some cl ∧
        cl.username = c1.username ∧ cl.password = c1.password) := by
  constructor
  · intro env p q cp cq hp hq hurl huser
    rw [clientConfig_key_shape env p cp hp, clientConfig_key_shape env q cq hq,
      hurl, huser]
  · intro env p1 p2 c1 c2 h1 h2 hkey
    have hcreate : createPhase env [p1, p2] [] =
        ([(c1.key, { username := c1.username, password := c1.password
                   , topicToProjects := [] })], [c1.key]) := by
      simp [createPhase, h1, h2, alookup, ← hkey]
    have hprune : prunePhase (requiredKeys env [p1, p2])
        [(c1.key, { username := c1.username, password := c1.password
                  , topicToProjects := [] })] =
        ([(c1.key, { username := c1.username, password := c1.password
                   , topicToProjects := [] })], []) := by
      apply prunePhase_all_kept
      intro k hk
      simp only [List.map_cons, List.map_nil, List.mem_singleton] at hk
      subst hk
      simp [requiredKeys, h1, h2]
    obtain ⟨cl2, hl2, hu, hpw⟩ := topicPhase_preserves_creds env [p1, p2]
      [(c1.key, { username := c1.username, password := c1.password
                , topicToProjects := [] })] [] c1.key
      { username := c1.username, password := c1.password
      , topicToProjects := [] } (by simp [alookup])
    refine ⟨cl2, ?_, hu, hpw⟩
    simp only [refresh, hcreate, hprune]
    exact hl2

/-- Fixture entity P1 with an explicit broker and password pw1. -/
def wProjectP1 : Project :=
  { projectId := "P1", projectName := "", topic := "t1", broker := some "b"
  , port := 1, username := some "user", password := some "pw1", cfg := wCfg }

/-- Fixture entity P2: identical broker and username, different password. -/
def wProjectP2 : Project :=
  { projectId := "P2", projectName := "", topic := "t2", broker := some "b"
  , port := 1, username := some "user", password := some "pw2", cfg := wCfg }

/-- Witness for C10: P1 and P2 share URL tcp://b:1 and username user but have
passwords pw1 and pw2; their keys coincide and the single converged
connection carries the password of P1, the entity processed first. -/
theorem c10_key_ignores_password_witness :
    (ClientConfig.key ⟨"tcp://b:1::user", "tcp://b:1", some "user", some "pw1"⟩ =
      ClientConfig.key ⟨"tcp://b:1::user", "tcp://b:1", some "user", some "pw2"⟩) ∧
    (∃ cl, alookup "tcp://b:1::user"
        (refresh { mqttUrl := none, mqttUsername := none, mqttPassword := none }
          [wProjectP1, wProjectP2]
          { clients := [], currentSubs := [] }).1.clients = some cl ∧
      cl.username = some "user" ∧ cl.password = some "pw1") := by
  constructor
  · exact c10_key_ignores_password.1
      { mqttUrl := none, mqttUsername := none, mqttPassword := none }
      wProjectP1 wProjectP2
      ⟨"tcp://b:1::user", "tcp://b:1", some "user", some "pw1"⟩
      ⟨"tcp://b:1::user", "tcp://b:1", some "user", some "pw2"⟩
      rfl rfl rfl rfl
  · exact c10_key_ignores_password.2
      { mqttUrl := none, mqttUsername := none, mqttPassword := none }
      wProjectP1 wProjectP2
      ⟨"tcp://b:1::user", "tcp://b:1", some "user", some "pw1"⟩
      ⟨"tcp://b:1::user", "tcp://b:1", some "user", some "pw2"⟩
      rfl rfl rfl

/-- C6 counterexample: the synchronization pass never prunes stale entries
from the per-connection topic index (mqttBridge.js lines 482-510 only add to
topicToProjects and only prune currentSubs, line 509).  Concretely: pass one
registers A (topic tA) and B (topic tB) on one connection; pass two runs with
only B in the configuration; the connection key is still required, so the
client survives with its topic index still mapping tA to the set containing
A, although A is absent from the latest pass. -/
theorem c6_stale_topic_entry_cex :
    ∃ cl, alookup "u::"
        ((refresh wEnv [wProjectB]
          (refresh wEnv [wProjectA, wProjectB]
            { clients := [], currentSubs := [] }).1).1.clients) = some cl ∧
      alookup "tA" cl.topicToProjects = some ["A"] ∧
      (∀ p ∈ [wProjectB], p.projectId ≠ "A") := by
  refine ⟨{ username := none, password := none
          , topicToProjects := [("tA", ["A"]), ("tB", ["B"])] }, ?_, rfl, ?_⟩
  · rfl
  · decide

/-- C6 amended: after a synchronization pass, every currentSubs entry refers
to an entity of the latest pass and every live client key is required by the
latest pass; the per-connection topic index, however, may retain entries for
entities absent from the latest pass while their connection key stays
required (such stale entries are ignored at message time because the
currentSubs lookup fails). -/
theorem c6_subs_and_clients_pruned (env : Env) (l : List Project)
    (s : BridgeState) :
    (∀ pid r, (pid, r) ∈ (refresh env l s).1.currentSubs →
      ∃ p ∈ l, p.projectId = pid) ∧
    (∀ k, k ∈ (refresh env l s).1.clients.map Prod.fst →
      k ∈ requiredKeys env l) := by
  constructor
  · intro pid r hmem
    simp only [refresh] at hmem
    have hpred := (List.mem_filter.mp hmem).2
    simp only [List.any_eq_true] at hpred
    rcases hpred with ⟨p, hp, hdec⟩
    exact ⟨p, hp, of_decide_eq_true hdec⟩
  · exact fun k hk => (refresh_keys env l s k).mp hk

/-- Witness for C6 amended: on the second pass of the counterexample fixture,
the only currentSubs entry is B and the theorem yields its membership in the
latest project list. -/
theorem c6_subs_and_clients_pruned_witness :
    ∃ p ∈ [wProjectB], p.projectId = "B" := by
  apply (c6_subs_and_clients_pruned wEnv [wProjectB]
    (refresh wEnv [wProjectA, wProjectB]
      { clients := [], currentSubs := [] }).1).1 "B" (mkSubRec "u::" wProjectB)
  decide

/-
  Model of parseNumberFromPayload (mqttBridge.js lines 278-288): the JS regex
  match s.match(/[-+]?[0-9]*\.?[0-9]+/) with leftmost-match and
  greedy-with-backtracking semantics, hand-derived for this fixed pattern,
  followed by parseFloat on the matched token and the multiplier and offset
  transform.  Payloads are lists of characters; JS numbers are exact
  rationals.
-/

/-- Greedy match of the unsigned part [0-9]*\.?[0-9]+ at the head of s.  For
this fixed pattern, greedy matching with backtracking collapses to: a
nonempty digit run, extended by a dot and a second nonempty digit run when
both follow; or a dot followed by a nonempty digit run. -/
def numTokenAt (s : List Char) : Option (List Char) :=
  if s.takeWhile Char.isDigit = [] then
    match s with
    | [] => none
    | c :: r2 =>
      if c = '.' then
        if r2.takeWhile Char.isDigit = [] then none
        else some ('.' :: r2.takeWhile Char.isDigit)
      else none
  else
    match s.dropWhile Char.isDigit with
    | [] => some (s.takeWhile Char.isDigit)
    | c :: r2 =>
      if c = '.' then
        if r2.takeWhile Char.isDigit = [] then some (s.takeWhile Char.isDigit)
        else some (s.takeWhile Char.isDigit ++ '.' :: r2.takeWhile Char.isDigit)
      else some (s.takeWhile Char.isDigit)

/-- Match of the full pattern [-+]?[0-9]*\.?[0-9]+ at the head of s: an
optional sign followed by the unsigned part (a sign character that is not
followed by an unsigned match cannot start a match at this position). -/
def matchAt (s : List Char) : Option (List Char) :=
  match s with
  | [] => none
  | c :: cs =>
    if c = '-' ∨ c = '+' then (numTokenAt cs).map (fun t => c :: t)
    else numTokenAt (c :: cs)

/-- Leftmost match of the pattern in s: the prefix before the match and the
matched token (String.prototype.match returns the first match). -/
def matchFirstPos : List Char → Option (List Char × List Char)
  | [] => none
  | c :: cs =>
    match matchAt (c :: cs) with
    | some tok => some ([], tok)
    | none => (matchFirstPos cs).map (fun pr => (c :: pr.1, pr.2))

/-- Numeric value of a digit character. -/
def digitVal (c : Char) : ℕ := c.toNat - '0'.toNat

/-- Decimal value of a digit run. -/
def natOfDigits (l : List Char) : ℕ := l.foldl (fun a c => 10 * a + digitVal c) 0

/-- parseFloat on an unsigned matched token: integer digits, plus an optional
fraction after the dot. -/
def parseUnsignedDec (t : List Char) : ℚ :=
  match t.dropWhile Char.isDigit with
  | [] => (natOfDigits (t.takeWhile Char.isDigit) : ℚ)
  | c :: d2 =>
    if c = '.' then
      (natOfDigits (t.takeWhile Char.isDigit) : ℚ) +
        (natOfDigits d2 : ℚ) / (10 : ℚ) ^ d2.length
    else (natOfDigits (t.takeWhile Char.isDigit) : ℚ)

/-- parseFloat on a matched token: optional sign, then the unsigned value. -/
def parseDec (t : List Char) : ℚ :=
  match t with
  | '-' :: u => - parseUnsignedDec u
  | '+' :: u => parseUnsignedDec u
  | _ => parseUnsignedDec t

/-- The numeric transform (mqttBridge.js lines 284-285): multiply when a
multiplier is configured, then add the offset when configured. -/
def applyTransform (multiplier offset : Option ℚ) (v : ℚ) : ℚ :=
  match offset with
  | some o => (match multiplier with | some m => v * m | none => v) + o
  | none => match multiplier with | some m => v * m | none => v

/-- parseNumberFromPayload: none when the payload holds no match (the message
is dropped, not an error), else the transformed value of the first match. -/
def parseNumberFromPayload (s : List Char) (multiplier offset : Option ℚ) :
    Option ℚ :=
  match matchFirstPos s with
  | none => none
  | some pr => some (applyTransform multiplier offset (parseDec pr.2))

/-- Modelled from the spec: a signed decimal numeric literal, the language of
the regex [-+]?[0-9]*\.?[0-9]+ as a complete word — an optional sign, then
either a nonempty digit run or a possibly empty digit run, a dot and a
nonempty digit run. -/
def unsignedLit (t : List Char) : Prop :=
  (t ≠ [] ∧ ∀ c ∈ t, c.isDigit = true) ∨
  ∃ d1 d2, t = d1 ++ '.' :: d2 ∧ (∀ c ∈ d1, c.isDigit = true) ∧ d2 ≠ [] ∧
    (∀ c ∈ d2, c.isDigit = true)

/-- Modelled from the spec: a numeric literal with optional sign. -/
def numLit (t : List Char) : Prop :=
  unsignedLit t ∨ ∃ u, (t = '-' :: u ∨ t = '+' :: u) ∧ unsignedLit u

theorem mem_takeWhile_digit {l : List Char} {c : Char}
    (h : c ∈ l.takeWhile Char.isDigit) : c.isDigit = true := by
  induction l with
  | nil => cases h
  | cons a rest ih =>
    by_cases ha : a.isDigit = true
    · rw [List.takeWhile_cons_of_pos ha] at h
      rcases List.mem_cons.mp h with rfl | h2
      · exact ha
      · exact ih h2
    · rw [List.takeWhile_cons_of_neg ha] at h
      cases h

theorem numTokenAt_some_spec (s t : List Char) (h : numTokenAt s = some t) :
    unsignedLit t ∧ ∃ r, s = t ++ r := by
  unfold numTokenAt at h
  by_cases hd1 : s.takeWhile Char.isDigit = []
  · rw [if_pos hd1] at h
    split at h
    · cases h
    · rename_i c r2
      by_cases hc : c = '.'
      · rw [if_pos hc] at h
        by_cases hd2 : r2.takeWhile Char.isDigit = []
        · rw [if_pos hd2] at h
          cases h
        · rw [if_neg hd2] at h
          injection h with ht
          subst ht
          subst hc
          refine ⟨Or.inr ⟨[], r2.takeWhile Char.isDigit, rfl, by simp, hd2,
            fun c2 hc2 => mem_takeWhile_digit hc2⟩,
            r2.dropWhile Char.isDigit, ?_⟩
          simp [List.takeWhile_append_dropWhile]
      · rw [if_neg hc] at h
        cases h
  · rw [if_neg hd1] at h
    have hs : s = s.takeWhile Char.isDigit ++ s.dropWhile Char.isDigit :=
      (List.takeWhile_append_dropWhile Char.isDigit s).symm
    have hlit1 : unsignedLit (s.takeWhile Char.isDigit) :=
      Or.inl ⟨hd1, fun c2 hc2 => mem_takeWhile_digit hc2⟩
    cases hdrop : s.dropWhile Char.isDigit with
    | nil =>
      simp only [hdrop] at h
      injection h with ht
      subst ht
      refine ⟨hlit1, [], ?_⟩
      rw [hdrop] at hs
      simpa using hs
    | cons c r2 =>
      simp only [hdrop] at h
      by_cases hc : c = '.'
      · rw [if_pos hc] at h
        by_cases hd2 : r2.takeWhile Char.isDigit = []
        · rw [if_pos hd2] at h
          injection h with ht
          subst ht
          refine ⟨hlit1, c :: r2, ?_⟩
          rw [hdrop] at hs
          exact hs
        · rw [if_neg hd2] at h
          injection h with ht
          subst ht
          subst hc
          refine ⟨Or.inr ⟨s.takeWhile Char.isDigit, r2.takeWhile Char.isDigit,
            rfl, fun c2 hc2 => mem_takeWhile_digit hc2, hd2,
            fun c2 hc2 => mem_takeWhile_digit hc2⟩,
            r2.dropWhile Char.isDigit, ?_⟩
        -- s = take ++ '.' :: r2 and r2 = take2 ++ drop2
          rw [hdrop] at hs
          conv_lhs => rw [hs]
          simp [List.takeWhile_append_dropWhile]
      · rw [if_neg hc] at h
        injection h with ht
        subst ht
        refine ⟨hlit1, c :: r2, ?_⟩
        rw [hdrop] at hs
        exact hs

theorem numTokenAt_isSome_of_digit_head (c : Char) (cs : List Char)
    (hc : c.isDigit = true) : (numTokenAt (c :: cs)).isSome = true := by
  unfold numTokenAt
  have hne : (c :: cs).takeWhile Char.isDigit ≠ [] := by
    rw [List.takeWhile_cons_of_pos hc]
    simp
  rw [if_neg hne]
  split
  · rfl
  · split
    · split <;> rfl
    · rfl

theorem numTokenAt_isSome_dot (c : Char) (cs : List Char)
    (hc : c.isDigit = true) : (numTokenAt ('.' :: c :: cs)).isSome = true := by
  have h1 : ('.' :: c :: cs).takeWhile Char.isDigit = [] := by
    rw [List.takeWhile_cons_of_neg]
    decide
  have h2 : (c :: cs).takeWhile Char.isDigit ≠ [] := by
    rw [List.takeWhile_cons_of_pos hc]
    simp
  simp [numTokenAt, h1, h2]

theorem unsignedLit_ne_nil {u : List Char} (h : unsignedLit u) : u ≠ [] := by
  rcases h with ⟨hne, _⟩ | ⟨d1, d2, hu, _, _, _⟩
  · exact hne
  · subst hu
    cases d1 <;> simp

theorem unsignedLit_head {c : Char} {cs : List Char}
    (h : unsignedLit (c :: cs)) : c.isDigit = true ∨ c = '.' := by
  rcases h with ⟨_, hdig⟩ | ⟨d1, d2, hu, hd1, _, _⟩
  · exact Or.inl (hdig c (List.mem_cons_self c cs))
  · cases d1 with
    | nil =>
      injection hu with h1 _
      exact Or.inr h1
    | cons a d1' =>
      injection hu with h1 _
      subst h1
      exact Or.inl (hd1 c (List.mem_cons_self c d1'))

theorem unsignedLit_matches (u r : List Char) (h : unsignedLit u) :
    (numTokenAt (u ++ r)).isSome = true := by
  rcases h with ⟨hne, hdig⟩ | ⟨d1, d2, hu, hd1, hd2ne, hd2⟩
  · cases u with
    | nil => exact absurd rfl hne
    | cons c cs =>
      exact numTokenAt_isSome_of_digit_head c (cs ++ r)
        (hdig c (List.mem_cons_self c cs))
  · subst hu
    cases d1 with
    | nil =>
      cases d2 with
      | nil => exact absurd rfl hd2ne
      | cons c cs =>
        have heq : (([] ++ '.' :: c :: cs) ++ r) = '.' :: c :: (cs ++ r) := by
          simp
        rw [heq]
        exact numTokenAt_isSome_dot c (cs ++ r) (hd2 c (List.mem_cons_self c cs))
    | cons a d1' =>
      have ha : a.isDigit = true := hd1 a (List.mem_cons_self a d1')
      have heq : ((a :: d1' ++ '.' :: d2) ++ r) =
          a :: ((d1' ++ '.' :: d2) ++ r) := by simp
      rw [heq]
      exact numTokenAt_isSome_of_digit_head a _ ha

theorem matchAt_nil : matchAt [] = none := rfl

theorem matchAt_cons (c : Char) (cs : List Char) :
    matchAt (c :: cs) =
      if c = '-' ∨ c = '+' then (numTokenAt cs).map (fun t => c :: t)
      else numTokenAt (c :: cs) := rfl

theorem numLit_nil_false : ¬ numLit [] := by
  rintro (h | ⟨u, (h | h), _⟩)
  · exact unsignedLit_ne_nil h rfl
  · cases h
  · cases h

theorem numLit_matchAt (m r : List Char) (h : numLit m) :
    (matchAt (m ++ r)).isSome = true := by
  rcases h with hu | ⟨u, hsign, hu⟩
  · have hm : m ≠ [] := unsignedLit_ne_nil hu
    cases m with
    | nil => exact absurd rfl hm
    | cons c cs =>
      have hcs : ¬ (c = '-' ∨ c = '+') := by
        rcases unsignedLit_head hu with h1 | h1
        · rintro (rfl | rfl) <;> exact absurd h1 (by decide)
        · subst h1
          rintro (h2 | h2) <;> exact absurd h2 (by decide)
      show (matchAt (c :: (cs ++ r))).isSome = true
      rw [matchAt_cons, if_neg hcs]
      exact unsignedLit_matches (c :: cs) r hu
  · rcases hsign with rfl | rfl
    · show (matchAt ('-' :: (u ++ r))).isSome = true
      rw [matchAt_cons, if_pos (Or.inl rfl)]
      cases hnum : numTokenAt (u ++ r) with
      | none =>
        have := unsignedLit_matches u r hu
        rw [hnum] at this
        cases this
      | some t0 => simp [hnum]
    · show (matchAt ('+' :: (u ++ r))).isSome = true
      rw [matchAt_cons, if_pos (Or.inr rfl)]
      cases hnum : numTokenAt (u ++ r) with
      | none =>
        have := unsignedLit_matches u r hu
        rw [hnum] at this
        cases this
      | some t0 => simp [hnum]

theorem matchAt_some_spec (s t : List Char) (h : matchAt s = some t) :
    numLit t ∧ ∃ r, s = t ++ r := by
  cases s with
  | nil =>
    rw [matchAt_nil] at h
    cases h
  | cons c cs =>
    rw [matchAt_cons] at h
    by_cases hc : c = '-' ∨ c = '+'
    · rw [if_pos hc] at h
      cases ht : numTokenAt cs with
      | none =>
        rw [ht] at h
        cases h
      | some t0 =>
        rw [ht] at h
        injection h with h1
        obtain ⟨hu, r, hr⟩ := numTokenAt_some_spec cs t0 ht
        subst h1
        refine ⟨Or.inr ⟨t0, ?_, hu⟩, r, by rw [hr]; rfl⟩
        rcases hc with rfl | rfl
        · exact Or.inl rfl
        · exact Or.inr rfl
    · rw [if_neg hc] at h
      obtain ⟨hu, r, hr⟩ := numTokenAt_some_spec (c :: cs) t h
      exact ⟨Or.inl hu, r, hr⟩

theorem matchFirstPos_none_spec :
    ∀ (s : List Char), matchFirstPos s = none →
    ∀ pre mid suf, s = pre ++ mid ++ suf → ¬ numLit mid := by
  intro s
  induction s with
  | nil =>
    intro _ pre mid suf hs hlit
    have h1 := List.append_eq_nil.mp hs.symm
    have h2 := List.append_eq_nil.mp h1.1
    exact numLit_nil_false (h2.2 ▸ hlit)
  | cons c cs ih =>
    intro h pre mid suf hs hlit
    have hfc : matchFirstPos (c :: cs) =
        match matchAt (c :: cs) with
        | some tok => some ([], tok)
        | none => (matchFirstPos cs).map (fun pr => (c :: pr.1, pr.2)) := rfl
    rw [hfc] at h
    cases hm : matchAt (c :: cs) with
    | some tok =>
      rw [hm] at h
      cases h
    | none =>
      rw [hm] at h
      have hrec : matchFirstPos cs = none := by
        cases hfp : matchFirstPos cs with
        | none => rfl
        | some pr =>
          rw [hfp] at h
          cases h
      cases pre with
      | nil =>
        simp only [List.nil_append] at hs
        have hsome := numLit_matchAt mid suf hlit
        rw [← hs, hm] at hsome
        cases hsome
      | cons a pre2 =>
        simp only [List.cons_append] at hs
        injection hs with h1 h2
        exact ih hrec pre2 mid suf h2 hlit

theorem matchFirstPos_some_spec :
    ∀ (s pre tok : List Char), matchFirstPos s = some (pre, tok) →
    (∃ suf, s = pre ++ tok ++ suf) ∧ numLit tok ∧
    ∀ pre2 mid suf2, s = pre2 ++ mid ++ suf2 → numLit mid →
      pre.length ≤ pre2.length := by
  intro s
  induction s with
  | nil =>
    intro pre tok h
    cases h
  | cons c cs ih =>
    intro pre tok h
    have hfc : matchFirstPos (c :: cs) =
        match matchAt (c :: cs) with
        | some tok => some ([], tok)
        | none => (matchFirstPos cs).map (fun pr => (c :: pr.1, pr.2)) := rfl
    rw [hfc] at h
    cases hm : matchAt (c :: cs) with
    | some t0 =>
      rw [hm] at h
      injection h with h1
      injection h1 with hp htk
      subst hp
      subst htk
      obtain ⟨hlit, r, hr⟩ := matchAt_some_spec (c :: cs) t0 hm
      refine ⟨⟨r, by simpa using hr⟩, hlit, ?_⟩
      intro pre2 mid suf2 _ _
      simp
    | none =>
      rw [hm] at h
      cases hfp : matchFirstPos cs with
      | none =>
        rw [hfp] at h
        cases h
      | some pr =>
        obtain ⟨pr1, pr2⟩ := pr
        rw [hfp] at h
        injection h with h1
        injection h1 with hp htk
        subst hp
        subst htk
        obtain ⟨⟨suf, hsuf⟩, hlit, hmin⟩ := ih pr1 pr2 hfp
        refine ⟨⟨suf, by rw [hsuf]; rfl⟩, hlit, ?_⟩
        intro pre2 mid suf2 hs hmid
        cases pre2 with
        | nil =>
          simp only [List.nil_append] at hs
          have hsome := numLit_matchAt mid suf2 hmid
          rw [← hs, hm] at hsome
          cases hsome
        | cons a pre2' =>
          simp only [List.cons_append] at hs
          injection hs with h2 h3
          have hle := hmin pre2' mid suf2 h3 hmid
          simp only [List.length_cons]
          omega

/-- C8: extraction is exactly first-numeric-literal matching with the
transform applied.  (1) parseNumberFromPayload returns none iff the payload
contains no signed decimal numeric literal as a substring (the payload is
dropped, not raised as an error); (2) every returned value decomposes the
payload around a numeric literal token starting at the leftmost position
where any literal starts, with the returned value equal to
tokenValue * multiplier + offset (each transform component applied when
configured). -/
theorem c8_first_numeric_literal (s : List Char) (multiplier offset : Option ℚ) :
    (parseNumberFromPayload s multiplier offset = none ↔
      ∀ pre mid suf, s = pre ++ mid ++ suf → ¬ numLit mid) ∧
    (∀ q, parseNumberFromPayload s multiplier offset = some q →
      ∃ pre tok suf, s = pre ++ tok ++ suf ∧ numLit tok ∧
        (∀ pre2 mid suf2, s = pre2 ++ mid ++ suf2 → numLit mid →
          pre.length ≤ pre2.length) ∧
        q = applyTransform multiplier offset (parseDec tok)) := by
  constructor
  · constructor
    · intro h
      unfold parseNumberFromPayload at h
      cases hm : matchFirstPos s with
      | none => exact matchFirstPos_none_spec s hm
      | some pr =>
        rw [hm] at h
        cases h
    · intro h
      unfold parseNumberFromPayload
      cases hm : matchFirstPos s with
      | none => rfl
      | some pr =>
        obtain ⟨pr1, pr2⟩ := pr
        obtain ⟨⟨suf, hsuf⟩, hlit, _⟩ := matchFirstPos_some_spec s pr1 pr2 hm
        exact absurd hlit (h pr1 pr2 suf hsuf)
  · intro q hq
    unfold parseNumberFromPayload at hq
    cases hm : matchFirstPos s with
    | none =>
      rw [hm] at hq
      cases hq
    | some pr =>
      rw [hm] at hq
      obtain ⟨pr1, pr2⟩ := pr
      obtain ⟨⟨suf, hsuf⟩, hlit, hmin⟩ := matchFirstPos_some_spec s pr1 pr2 hm
      injection hq with hq1
      exact ⟨pr1, pr2, suf, hsuf, hlit, hmin, hq1.symm⟩

example : parseNumberFromPayload ['a', 'b', 'c'] none none = none := by decide

example : parseNumberFromPayload ['x', '-', '7'] none none = some (-7) := by
  decide

/-- Witness for C8: the payload "ab" parses to none and indeed contains no
numeric literal; the payload "x-7" parses to some value, which decomposes
around the leftmost literal token with the identity transform applied. -/
theorem c8_first_numeric_literal_witness :
    (∀ pre mid suf, (['a', 'b'] : List Char) = pre ++ mid ++ suf →
      ¬ numLit mid) ∧
    (∃ pre tok suf, (['x', '-', '7'] : List Char) = pre ++ tok ++ suf ∧
      numLit tok ∧
      (∀ pre2 mid suf2, (['x', '-', '7'] : List Char) = pre2 ++ mid ++ suf2 →
        numLit mid → pre.length ≤ pre2.length) ∧
      (-7 : ℚ) = applyTransform none none (parseDec tok)) :=
  ⟨(c8_first_numeric_literal ['a', 'b'] none none).1.mp (by decide),
   (c8_first_numeric_literal ['x', '-', '7'] none none).2 (-7) (by decide)⟩

end LiquidBridge
